import Mathlib

/-!
Shallow embedding of the AXI-Stream driver/monitor pair from
`cocotbext-axis` (`src/axis/__init__.py`):

* the byte-lane encoder `AXIS_Master._send_bytes`, which segments a byte
  sequence into bus words with per-lane `tkeep`/`tstrb` qualifiers, a
  `tlast` marker and endianness-dependent lane packing;
* the decoder/reassembler loop `AXIS_Monitor._monitor_recv`, which samples
  one bus word per accepted cycle, classifies each lane from its
  (tkeep, tstrb) pair, buffers partial packets per stream key and emits a
  completed packet when a last word is seen;
* the construction-time width checks of `AXIS_Master.__init__` and
  `AXIS_Monitor.__init__`.

Machine words are modelled as lists of `Nat` byte values in binary-string
order (index 0 is the leftmost / most significant end of the signal's
`binstr`, exactly the index the Python code uses into
`tkeep.value.binstr[b]` and `tdata.value.binstr[b*8:(b+1)*8]`).
Padding bytes whose value the driver leaves as `X` are modelled by an
arbitrary `pad : Nat` parameter; theorems quantify over it whenever the
monitor never resolves those lanes.
-/

/-- Classification of one byte lane from its (keep, strb) qualifier pair.
The decode loop of `AXIS_Monitor._monitor_recv` matches the two-character
string `tkeep.binstr[b] + tstrb.binstr[b]`: "11" data byte, "10" position
byte, "01" invalid (protocol error), "00" null byte. -/
inductive LaneClass where
  | data
  | position
  | invalid
  | null
  deriving DecidableEq, Repr

/-- Resolve the (tkeep, tstrb) bit pair of one lane into its class, the
truth table implemented by the `byte_type` match in `_monitor_recv`. -/
def byteType (keepBit strbBit : Bool) : LaneClass :=
  if keepBit then (if strbBit then LaneClass.data else LaneClass.position)
  else (if strbBit then LaneClass.invalid else LaneClass.null)

/-- One bus word as sampled at a clock edge.  `data`, `keep`, `strb` and
`user` are in binary-string order: index 0 is the leftmost character of the
signal's `binstr`, the index used by the Python monitor.  `user` holds the
per-lane slices of `tuser` used in byte-wise mode. -/
structure AxisWord where
  data : List Nat
  keep : List Bool
  strb : List Bool
  last : Bool
  tid : Nat
  tdest : Nat
  user : List Nat
  deriving DecidableEq, Repr

/-- Capability record of one monitor instance, fixed at construction:
which optional signals exist on the bus and the configured byte count and
endianness (`_n_bytes`, `_lsb_first`). -/
structure MonitorCfg where
  nBytes : Nat
  lsbFirst : Bool
  hasKeep : Bool
  hasStrb : Bool
  hasLast : Bool
  hasId : Bool
  hasDest : Bool
  deriving DecidableEq, Repr

/-- Effective keep bits: `tkeep = getattr(self.bus, 'tkeep', _dummy(BinaryValue("1"*self._n_bytes)))`,
so an absent keep signal reads as all ones. -/
def effKeep (cfg : MonitorCfg) (w : AxisWord) : List Bool :=
  if cfg.hasKeep then w.keep else List.replicate cfg.nBytes true

/-- Effective strb bits: `tstrb = getattr(self.bus, 'tstrb', tkeep)`, so an
absent strb signal mirrors the (effective) keep signal, not all ones. -/
def effStrb (cfg : MonitorCfg) (w : AxisWord) : List Bool :=
  if cfg.hasStrb then w.strb else effKeep cfg w

/-- Lane iteration order of the decode loop: `range(n_bytes-1, -1, -1)`
when `lsb_first`, else `range(n_bytes)`. -/
def byteRange (cfg : MonitorCfg) : List Nat :=
  if cfg.lsbFirst then (List.range cfg.nBytes).reverse else List.range cfg.nBytes

/-- Per-word lane filtering loop of `_monitor_recv`: iterate the lane
indices, classify each lane, collect `filtered_data` (first component) and
`filtered_user` (second component, the bytes appended in byte-wise user
mode).  A data lane contributes the lane's data byte and user slice, a
position lane contributes a zero to both lists, an invalid lane raises
`AXIS_ProtocolError` (modelled as `Except.error ()`, aborting the word), a
null lane contributes nothing. -/
def filterLanes (w : AxisWord) (keepL strbL : List Bool) :
    List Nat → Except Unit (List Nat × List Nat)
  | [] => Except.ok ([], [])
  | b :: rest =>
    match byteType (keepL.getD b false) (strbL.getD b false) with
    | LaneClass.data =>
        (filterLanes w keepL strbL rest).map
          (fun p => (w.data.getD b 0 :: p.1, w.user.getD b 0 :: p.2))
    | LaneClass.position =>
        (filterLanes w keepL strbL rest).map (fun p => (0 :: p.1, 0 :: p.2))
    | LaneClass.invalid => Except.error ()
    | LaneClass.null => filterLanes w keepL strbL rest

/-- Decode one word under a monitor configuration: classify every lane in
iteration order using the effective keep/strb signals. -/
def filterWord (cfg : MonitorCfg) (w : AxisWord) : Except Unit (List Nat × List Nat) :=
  filterLanes w (effKeep cfg w) (effStrb cfg w) (byteRange cfg)

instance {ε α : Type _} [DecidableEq ε] [DecidableEq α] : DecidableEq (Except ε α) := fun x y =>
  match x, y with
  | Except.error a, Except.error b =>
      if h : a = b then isTrue (by rw [h])
      else isFalse (by intro hc; cases hc; exact h rfl)
  | Except.error _, Except.ok _ => isFalse (by intro hc; cases hc)
  | Except.ok _, Except.error _ => isFalse (by intro hc; cases hc)
  | Except.ok a, Except.ok b =>
      if h : a = b then isTrue (by rw [h])
      else isFalse (by intro hc; cases hc; exact h rfl)

/-- Stream demultiplexing key:
`stream_id = (int(tid) if tid else None, int(tdest) if tdest else None)`. -/
abbrev StreamKey := Option Nat × Option Nat

/-- Key of a sampled word under the monitor's capability record. -/
def streamKey (cfg : MonitorCfg) (w : AxisWord) : StreamKey :=
  (if cfg.hasId then some w.tid else none,
   if cfg.hasDest then some w.tdest else none)

/-- Completion condition `not tlast or int(tlast)`: a word is a packet end
when the bus has no tlast signal, or when tlast is high. -/
def isLastWord (cfg : MonitorCfg) (w : AxisWord) : Bool :=
  !cfg.hasLast || w.last

/-- Reassembler state: `packet_buf` (pending chunk lists per stream key,
`none` modelling absence from the Python dict), the packets delivered via
`self._recv` so far, and whether the receive coroutine has died from an
uncaught `AXIS_ProtocolError`. -/
structure MonState where
  buf : StreamKey → Option (List (List Nat))
  dead : Bool
  emitted : List (StreamKey × List Nat)

/-- One sampled cycle: reset state, the tvalid/tready bits (tready reads as
constant 1 when the signal is absent) and the word on the bus. -/
structure BusCycle where
  reset : Bool
  valid : Bool
  ready : Bool
  word : AxisWord

/-- Fresh monitor state: empty pending table, live coroutine, no packets. -/
def monInit : MonState :=
  { buf := fun _ => none, dead := false, emitted := [] }

/-- One iteration of the `while True` receive loop of `_monitor_recv`.
After an uncaught exception the coroutine is gone, so a dead state ignores
everything.  A reset cycle drops the whole pending table and skips
processing.  On an accepted word (`tvalid and tready`) the lanes are
filtered; an invalid lane kills the coroutine.  If the word is last and a
pending buffer exists it is concatenated with this word's bytes, delivered,
and the entry removed; if no buffer exists the `KeyError` branch of the
source builds `recv_pkt` but never calls `self._recv`, so nothing is
emitted and the state is unchanged.  A non-last word appends to (or
creates) the pending buffer of its key. -/
def monStep (cfg : MonitorCfg) (s : MonState) (c : BusCycle) : MonState :=
  if s.dead then s
  else if c.reset then { s with buf := fun _ => none }
  else if c.valid && c.ready then
    match filterWord cfg c.word with
    | Except.error _ => { s with dead := true }
    | Except.ok fd =>
      let k := streamKey cfg c.word
      if isLastWord cfg c.word then
        match s.buf k with
        | some chunks =>
            { s with
              emitted := s.emitted ++ [(k, chunks.flatten ++ fd.1)],
              buf := fun k2 => if k2 = k then none else s.buf k2 }
        | none => s
      else
        match s.buf k with
        | some chunks =>
            { s with buf := fun k2 => if k2 = k then some (chunks ++ [fd.1]) else s.buf k2 }
        | none =>
            { s with buf := fun k2 => if k2 = k then some [fd.1] else s.buf k2 }
  else s

/-- Run the receive loop over a list of sampled cycles. -/
def monRun (cfg : MonitorCfg) (cs : List BusCycle) (s : MonState) : MonState :=
  cs.foldl (monStep cfg) s

/-- Build one driven word of `AXIS_Master._send_bytes` from the byte slice
`bytestr[offset:offset+n_bytes]`.  The slice is reversed when `lsb_first`;
a short final slice is padded with `padbytes` copies of the pad byte, on
the left (string order) for `lsb_first` and on the right otherwise, and
the keep string is 0 on pad lanes and 1 on real lanes.  `tstrb` is driven
with the same string as `tkeep`. -/
def mkWord (n : Nat) (lsb : Bool) (pad : Nat) (lastW : Bool) (chunk : List Nat) : AxisWord :=
  let bytelist := if lsb then chunk.reverse else chunk
  let p := n - chunk.length
  let keepL := if lsb then List.replicate p false ++ List.replicate (n - p) true
               else List.replicate (n - p) true ++ List.replicate p false
  { data := if lsb then List.replicate p pad ++ bytelist else bytelist ++ List.replicate p pad,
    keep := keepL,
    strb := keepL,
    last := lastW,
    tid := 0,
    tdest := 0,
    user := [] }

/-- Loop body of `_send_bytes`: `for offset in range(0, len(bytestr), n_bytes)`
emits one word per slice; `last_word` is set exactly when no bytes remain
after the slice.  The fuel argument only bounds the iteration count and is
never exhausted when it starts at the byte count (each iteration consumes
at least one byte). -/
def sendBytesAux (n : Nat) (lsb : Bool) (pad : Nat) : Nat → List Nat → List AxisWord
  | _, [] => []
  | 0, _ :: _ => []
  | fuel + 1, b :: bs =>
      mkWord n lsb pad (bs.drop (n - 1)).isEmpty (b :: bs.take (n - 1)) ::
        sendBytesAux n lsb pad fuel (bs.drop (n - 1))

/-- Word sequence driven by `AXIS_Master._send_bytes` for a byte sequence:
one word per `n`-byte slice, the final short slice padded.  An empty byte
sequence drives no words (`range(0, 0, n)` is empty). -/
def sendBytes (n : Nat) (lsb : Bool) (pad : Nat) (bs : List Nat) : List AxisWord :=
  sendBytesAux n lsb pad bs.length bs

/-- Construction-time check of `AXIS_Master.__init__`: with a tdata signal,
`divmod(len(tdata), 8)` must have zero remainder, else
`AttributeError("tdata width has to be multiple of 8")`; without tdata the
byte count is 1.  Returns `_n_bytes`. -/
def masterInit (hasData : Bool) (dataWidth : Nat) : Except String Nat :=
  if hasData then
    if dataWidth % 8 = 0 then Except.ok (dataWidth / 8)
    else Except.error "tdata width has to be multiple of 8"
  else Except.ok 1

/-- Construction-time checks of `AXIS_Monitor.__init__`: the tdata check of
`masterInit`, then, when a tuser signal exists and byte-wise mode is
selected with a nonzero byte count (`if tuser_bytewise and self._n_bytes`),
`divmod(len(tuser), n_bytes)` must have zero remainder.  Returns
`(_n_bytes, _user_bits)` with `_user_bits = none` when tuser is absent. -/
def monitorInit (hasData : Bool) (dataWidth : Nat) (hasUser : Bool)
    (userWidth : Nat) (bytewise : Bool) : Except String (Nat × Option Nat) :=
  match masterInit hasData dataWidth with
  | Except.error e => Except.error e
  | Except.ok nBytes =>
    if hasUser then
      if bytewise ∧ nBytes ≠ 0 then
        if userWidth % nBytes = 0 then Except.ok (nBytes, some (userWidth / nBytes))
        else Except.error "in byte-wise mode tuser width has to be multiple of tdata width"
      else Except.ok (nBytes, some userWidth)
    else Except.ok (nBytes, none)

/-- Wrap driven words into accepted monitor cycles (no reset, tvalid high,
tready high every cycle). -/
def cyclesOf (ws : List AxisWord) : List BusCycle :=
  ws.map (fun w => { reset := false, valid := true, ready := true, word := w })

/-- Monitor configuration matching the signal set `_send_bytes` drives:
tdata, tkeep, tstrb and tlast present, no tid/tdest. -/
def stdCfg (n : Nat) (lsb : Bool) : MonitorCfg :=
  { nBytes := n, lsbFirst := lsb, hasKeep := true, hasStrb := true,
    hasLast := true, hasId := false, hasDest := false }

/-- Payload contribution of one lane, written from the per-lane truth table
(amended to the code: a position lane contributes a zero byte to the payload
as well): a data lane contributes the lane's data byte, a position lane a
zero, invalid and null lanes nothing.  Used to state the closed form of
`filterLanes`. -/
def laneDataSpec (w : AxisWord) (keepL strbL : List Bool) (b : Nat) : Option Nat :=
  match byteType (keepL.getD b false) (strbL.getD b false) with
  | LaneClass.data => some (w.data.getD b 0)
  | LaneClass.position => some 0
  | LaneClass.invalid => none
  | LaneClass.null => none

/-- Byte-wise side-channel contribution of one lane: a data lane contributes
the lane's user slice, a position lane a zero placeholder, invalid and null
lanes nothing. -/
def laneUserSpec (w : AxisWord) (keepL strbL : List Bool) (b : Nat) : Option Nat :=
  match byteType (keepL.getD b false) (strbL.getD b false) with
  | LaneClass.data => some (w.user.getD b 0)
  | LaneClass.position => some 0
  | LaneClass.invalid => none
  | LaneClass.null => none

/-- Bytes a successfully decoded word contributes to its packet
(`filtered_data`); meaningful when `filterWord` succeeds. -/
def wordData (cfg : MonitorCfg) (w : AxisWord) : List Nat :=
  ((filterWord cfg w).toOption.getD ([], [])).1

/-- Payload assembled from a list of words of one packet. -/
def payloadOf (cfg : MonitorCfg) (ws : List AxisWord) : List Nat :=
  (ws.map (wordData cfg)).flatten

/-- Subsequence of words on the bus that belong to one stream key, in
arrival order. -/
def wordsFor (cfg : MonitorCfg) (k : StreamKey) (cs : List BusCycle) : List AxisWord :=
  (cs.map BusCycle.word).filter (fun w => streamKey cfg w = k)

/-- Single-key projection of the reassembler: the pending-buffer slot and
emitted payloads that result from processing one key's words, mirroring the
per-key branches of `monStep` (including the dropped no-buffer last word).
Used to state that `monStep` treats distinct stream keys independently. -/
def runKey (cfg : MonitorCfg) :
    List AxisWord → Option (List (List Nat)) → List (List Nat) × Option (List (List Nat))
  | [], slot => ([], slot)
  | w :: ws, slot =>
    if isLastWord cfg w then
      match slot with
      | some chunks =>
          let r := runKey cfg ws none
          ((chunks.flatten ++ wordData cfg w) :: r.1, r.2)
      | none => runKey cfg ws none
    else
      match slot with
      | some chunks => runKey cfg ws (some (chunks ++ [wordData cfg w]))
      | none => runKey cfg ws (some [wordData cfg w])

/-- Cycle on which the monitor processes a word: not in reset, tvalid and
tready both observed high. -/
def acceptedCycle (c : BusCycle) : Prop :=
  c.reset = false ∧ c.valid = true ∧ c.ready = true

/-- Well-formed word sequence of one packet for stream key `k`: nonempty,
tlast low on every word but the final one, tlast high on the final word,
every word carries key `k` and decodes without a protocol error. -/
def packetWords (cfg : MonitorCfg) (k : StreamKey) (ws : List AxisWord) : Prop :=
  ws ≠ [] ∧
  (∀ w ∈ ws.dropLast, w.last = false) ∧
  ws.getLast?.all (fun w => w.last) = true ∧
  (∀ w ∈ ws, streamKey cfg w = k ∧ (filterWord cfg w).isOk = true)

/-! ### Basic lemmas about the receive loop -/

theorem monRun_nil (cfg : MonitorCfg) (s : MonState) : monRun cfg [] s = s := rfl

theorem monRun_cons (cfg : MonitorCfg) (c : BusCycle) (cs : List BusCycle) (s : MonState) :
    monRun cfg (c :: cs) s = monRun cfg cs (monStep cfg s c) := rfl

theorem monStep_of_dead (cfg : MonitorCfg) (s : MonState) (c : BusCycle)
    (h : s.dead = true) : monStep cfg s c = s := by
  simp [monStep, h]

theorem monRun_of_dead (cfg : MonitorCfg) (cs : List BusCycle) (s : MonState)
    (h : s.dead = true) : monRun cfg cs s = s := by
  induction cs with
  | nil => rfl
  | cons c rest ih =>
      rw [monRun_cons, monStep_of_dead cfg s c h, ih]

theorem filterLanes_eq_error_iff (w : AxisWord) (kL sL : List Bool) (idxs : List Nat) :
    filterLanes w kL sL idxs = Except.error () ↔
      ∃ b ∈ idxs, byteType (kL.getD b false) (sL.getD b false) = LaneClass.invalid := by
  induction idxs with
  | nil => simp [filterLanes]
  | cons b rest ih =>
      simp only [filterLanes]
      cases hcl : byteType (kL.getD b false) (sL.getD b false) with
      | data =>
          cases hres : filterLanes w kL sL rest with
          | error e =>
              simp only [Except.map, List.mem_cons]
              rw [hres] at ih
              constructor
              · intro _
                rcases ih.mp rfl with ⟨x, hx, hxi⟩
                exact ⟨x, Or.inr hx, hxi⟩
              · intro _; trivial
          | ok p =>
              rw [hres] at ih
              simp only [Except.map, List.mem_cons]
              constructor
              · intro h; cases h
              · rintro ⟨x, hx, hxi⟩
                rcases hx with hx | hx
                · rw [hx] at hxi; rw [hcl] at hxi; cases hxi
                · exact absurd (ih.mpr ⟨x, hx, hxi⟩) (by simp)
      | position =>
          cases hres : filterLanes w kL sL rest with
          | error e =>
              simp only [Except.map, List.mem_cons]
              rw [hres] at ih
              constructor
              · intro _
                rcases ih.mp rfl with ⟨x, hx, hxi⟩
                exact ⟨x, Or.inr hx, hxi⟩
              · intro _; trivial
          | ok p =>
              rw [hres] at ih
              simp only [Except.map, List.mem_cons]
              constructor
              · intro h; cases h
              · rintro ⟨x, hx, hxi⟩
                rcases hx with hx | hx
                · rw [hx] at hxi; rw [hcl] at hxi; cases hxi
                · exact absurd (ih.mpr ⟨x, hx, hxi⟩) (by simp)
      | invalid =>
          simp only [List.mem_cons]
          exact ⟨fun _ => ⟨b, Or.inl rfl, hcl⟩, fun _ => trivial⟩
      | null =>
          rw [ih]
          simp only [List.mem_cons]
          constructor
          · rintro ⟨x, hx, hxi⟩
            exact ⟨x, Or.inr hx, hxi⟩
          · rintro ⟨x, hx, hxi⟩
            rcases hx with hx | hx
            · rw [hx] at hxi; rw [hcl] at hxi; cases hxi
            · exact ⟨x, hx, hxi⟩

theorem filterLanes_eq_ok (w : AxisWord) (kL sL : List Bool) (idxs : List Nat)
    (h : ∀ b ∈ idxs, byteType (kL.getD b false) (sL.getD b false) ≠ LaneClass.invalid) :
    filterLanes w kL sL idxs =
      Except.ok (idxs.filterMap (laneDataSpec w kL sL), idxs.filterMap (laneUserSpec w kL sL)) := by
  induction idxs with
  | nil => simp [filterLanes]
  | cons b rest ih =>
      have hb := h b (List.mem_cons_self b rest)
      have hrest : ∀ x ∈ rest, byteType (kL.getD x false) (sL.getD x false) ≠ LaneClass.invalid :=
        fun x hx => h x (List.mem_cons_of_mem b hx)
      simp only [filterLanes, List.filterMap_cons]
      cases hcl : byteType (kL.getD b false) (sL.getD b false) with
      | data =>
          rw [ih hrest]
          simp only [Except.map, laneDataSpec, laneUserSpec, hcl]
      | position =>
          rw [ih hrest]
          simp only [Except.map, laneDataSpec, laneUserSpec, hcl]
      | invalid => exact absurd hcl hb
      | null =>
          rw [ih hrest]
          simp only [laneDataSpec, laneUserSpec, hcl]

/-! ### Claim theorems -/

/-- C1, evaluated at the failing input: sending the one-byte sequence
[0x11] through the encoder at bus width 4 and replaying the driven words
into the monitor emits no packet at all, for both endianness settings — the
round-trip claim requires the packet [0x11].  Any sequence of at most one
bus word of bytes fails the same way, because the `KeyError` branch of
`_monitor_recv` builds `recv_pkt` but never calls `self._recv`. -/
theorem C1_roundtrip_fails_on_single_word :
    (monRun (stdCfg 4 true) (cyclesOf (sendBytes 4 true 0 [0x11])) monInit).emitted = [] ∧
    (monRun (stdCfg 4 false) (cyclesOf (sendBytes 4 false 0 [0x11])) monInit).emitted = [] := by
  decide

/-- C2, evaluated at the failing input: a word that is both the first and
the last of its key (so no pending buffer exists) decodes successfully, yet
the monitor emits nothing and leaves no buffer entry behind — the source's
`except KeyError` branch builds the packet dictionary but never delivers
it. -/
theorem C2_first_and_last_word_dropped :
    filterWord (stdCfg 1 true)
        { data := [0xAB], keep := [true], strb := [true], last := true,
          tid := 0, tdest := 0, user := [] } = Except.ok ([0xAB], [0]) ∧
    (monRun (stdCfg 1 true)
        [{ reset := false, valid := true, ready := true,
           word := { data := [0xAB], keep := [true], strb := [true], last := true,
                     tid := 0, tdest := 0, user := [] } }] monInit).emitted = [] ∧
    (monRun (stdCfg 1 true)
        [{ reset := false, valid := true, ready := true,
           word := { data := [0xAB], keep := [true], strb := [true], last := true,
                     tid := 0, tdest := 0, user := [] } }] monInit).buf (none, none) = none := by
  decide

/-- C3 counterexample: a lane with qualifier pair (keep=1, strb=0) — a
position byte — is not suppressed from the payload: decoding a one-lane
word with that pair yields payload [0], not the empty payload the claim
predicts (the zero placeholder appears in the payload as well as in the
byte-wise side-channel list). -/
theorem C3_position_byte_in_payload :
    filterWord (stdCfg 1 true)
        { data := [0xAB], keep := [true], strb := [false], last := true,
          tid := 0, tdest := 0, user := [7] } = Except.ok ([0], [0]) ∧
    filterWord (stdCfg 1 true)
        { data := [0xAB], keep := [true], strb := [false], last := true,
          tid := 0, tdest := 0, user := [7] } ≠ Except.ok ([], [0]) := by
  decide

/-- C3 (amended): the decoder classifies each (keep, strb) lane pair as
(1,1) data byte — appended to the payload together with its user slice;
(1,0) position byte — contributing a zero byte to the payload AND a zero
placeholder to the byte-wise side channel; (0,1) invalid — failing the
decode of the word with a protocol error; (0,0) null — contributing
nothing; and at construction an absent keep signal reads as all ones while
an absent strb signal mirrors the effective keep signal (so only when both
are absent is every lane forced to (1,1)). -/
theorem C3_lane_classification :
    (byteType true true = LaneClass.data ∧ byteType true false = LaneClass.position ∧
     byteType false true = LaneClass.invalid ∧ byteType false false = LaneClass.null) ∧
    (∀ (w : AxisWord) (kL sL : List Bool) (idxs : List Nat),
       (∀ b ∈ idxs, byteType (kL.getD b false) (sL.getD b false) ≠ LaneClass.invalid) →
       filterLanes w kL sL idxs =
         Except.ok (idxs.filterMap (laneDataSpec w kL sL), idxs.filterMap (laneUserSpec w kL sL))) ∧
    (∀ (w : AxisWord) (kL sL : List Bool) (idxs : List Nat),
       filterLanes w kL sL idxs = Except.error () ↔
         ∃ b ∈ idxs, byteType (kL.getD b false) (sL.getD b false) = LaneClass.invalid) ∧
    (∀ (cfg : MonitorCfg) (w : AxisWord), cfg.hasKeep = false →
       effKeep cfg w = List.replicate cfg.nBytes true) ∧
    (∀ (cfg : MonitorCfg) (w : AxisWord), cfg.hasStrb = false →
       effStrb cfg w = effKeep cfg w) := by
  refine ⟨⟨rfl, rfl, rfl, rfl⟩, filterLanes_eq_ok, filterLanes_eq_error_iff, ?_, ?_⟩
  · intro cfg w h
    simp [effKeep, h]
  · intro cfg w h
    simp [effStrb, h]

/-- Witness for the amended C3 theorem at a concrete input: one position
lane produces payload [0] and side-channel placeholder [0]. -/
theorem C3_lane_classification_witness :
    filterLanes
        { data := [0xAB], keep := [true], strb := [false], last := true,
          tid := 0, tdest := 0, user := [7] } [true] [false] [0] = Except.ok ([0], [0]) := by
  have h := C3_lane_classification.2.1
    { data := [0xAB], keep := [true], strb := [false], last := true,
      tid := 0, tdest := 0, user := [7] } [true] [false] [0] (by decide)
  rw [h]
  decide

/-- C4: whenever an accepted (non-reset, tvalid and tready high) word
carries a lane whose effective (keep, strb) pair resolves to invalid, the
decode of that word fails with a protocol error and the receive coroutine
dies without emitting a packet for that cycle. -/
theorem C4_invalid_lane_aborts_cycle (cfg : MonitorCfg) (s : MonState) (c : BusCycle)
    (hdead : s.dead = false) (hreset : c.reset = false)
    (hv : c.valid = true) (hr : c.ready = true)
    (b : Nat) (hb : b ∈ byteRange cfg)
    (hinv : byteType ((effKeep cfg c.word).getD b false) ((effStrb cfg c.word).getD b false)
              = LaneClass.invalid) :
    filterWord cfg c.word = Except.error () ∧
    monStep cfg s c = { s with dead := true } ∧
    (monStep cfg s c).emitted = s.emitted := by
  have herr : filterWord cfg c.word = Except.error () :=
    (filterLanes_eq_error_iff c.word (effKeep cfg c.word) (effStrb cfg c.word)
      (byteRange cfg)).mpr ⟨b, hb, hinv⟩
  have hstep : monStep cfg s c = { s with dead := true } := by
    simp [monStep, hdead, hreset, hv, hr, herr]
  exact ⟨herr, hstep, by rw [hstep]⟩

/-- Witness for C4 at a concrete input: a single-lane word with keep=0,
strb=1 kills the monitor and emits nothing. -/
theorem C4_invalid_lane_aborts_cycle_witness :
    filterWord (stdCfg 1 true)
        { data := [5], keep := [false], strb := [true], last := true,
          tid := 0, tdest := 0, user := [] } = Except.error () ∧
    monStep (stdCfg 1 true) monInit
        { reset := false, valid := true, ready := true,
          word := { data := [5], keep := [false], strb := [true], last := true,
                    tid := 0, tdest := 0, user := [] } } = { monInit with dead := true } ∧
    (monStep (stdCfg 1 true) monInit
        { reset := false, valid := true, ready := true,
          word := { data := [5], keep := [false], strb := [true], last := true,
                    tid := 0, tdest := 0, user := [] } }).emitted = monInit.emitted := by
  exact C4_invalid_lane_aborts_cycle (stdCfg 1 true) monInit
    { reset := false, valid := true, ready := true,
      word := { data := [5], keep := [false], strb := [true], last := true,
                tid := 0, tdest := 0, user := [] } }
    rfl rfl rfl rfl 0 (by decide) (by decide)

/-- C5: a reset cycle observed by a live monitor atomically drops the whole
pending table, emits nothing, and leaves the monitor in exactly the state
of a monitor with an empty pending table and the same emission history —
hence bytes of pending packets never reach any later completed packet, and
words arriving after the reset start fresh packets. -/
theorem C5_reset_discards_pending (cfg : MonitorCfg) (s : MonState) (c : BusCycle)
    (hdead : s.dead = false) (hreset : c.reset = true) :
    monStep cfg s c = { buf := fun _ => none, dead := false, emitted := s.emitted } := by
  simp [monStep, hdead, hreset]

/-- Witness for C5 at a concrete input: a monitor holding one pending
packet is wiped by a reset cycle. -/
theorem C5_reset_discards_pending_witness :
    monStep (stdCfg 1 true)
        { buf := fun k => if k = (none, none) then some [[1, 2]] else none,
          dead := false, emitted := [] }
        { reset := true, valid := false, ready := false,
          word := { data := [0], keep := [true], strb := [true], last := false,
                    tid := 0, tdest := 0, user := [] } }
      = { buf := fun _ => none, dead := false, emitted := [] } := by
  exact C5_reset_discards_pending (stdCfg 1 true)
    { buf := fun k => if k = (none, none) then some [[1, 2]] else none,
      dead := false, emitted := [] }
    { reset := true, valid := false, ready := false,
      word := { data := [0], keep := [true], strb := [true], last := false,
                tid := 0, tdest := 0, user := [] } }
    rfl rfl

/-- C10: a protocol error is fatal to the receive loop.  The offending
accepted word marks the state dead without emitting, and from that state
every further cycle list — resets included — leaves the state exactly
unchanged: no lane classification, no pending-buffer update and no packet
emission ever happen again on that monitor instance. -/
theorem C10_protocol_error_fatal (cfg : MonitorCfg) (s : MonState) (c : BusCycle)
    (hdead : s.dead = false) (hreset : c.reset = false)
    (hv : c.valid = true) (hr : c.ready = true)
    (herr : filterWord cfg c.word = Except.error ()) :
    monStep cfg s c = { s with dead := true } ∧
    (monStep cfg s c).emitted = s.emitted ∧
    ∀ cs : List BusCycle, monRun cfg cs (monStep cfg s c) = monStep cfg s c := by
  have hstep : monStep cfg s c = { s with dead := true } := by
    simp [monStep, hdead, hreset, hv, hr, herr]
  refine ⟨hstep, by rw [hstep], fun cs => ?_⟩
  rw [hstep]
  exact monRun_of_dead cfg cs _ rfl

/-- Witness for C10 at a concrete input: after an invalid-qualifier word
the monitor state is dead and a subsequent valid data word changes
nothing. -/
theorem C10_protocol_error_fatal_witness :
    monStep (stdCfg 1 false) monInit
        { reset := false, valid := true, ready := true,
          word := { data := [9], keep := [false], strb := [true], last := true,
                    tid := 0, tdest := 0, user := [] } } = { monInit with dead := true } ∧
    (monStep (stdCfg 1 false) monInit
        { reset := false, valid := true, ready := true,
          word := { data := [9], keep := [false], strb := [true], last := true,
                    tid := 0, tdest := 0, user := [] } }).emitted = monInit.emitted ∧
    ∀ cs : List BusCycle,
      monRun (stdCfg 1 false) cs
          (monStep (stdCfg 1 false) monInit
            { reset := false, valid := true, ready := true,
              word := { data := [9], keep := [false], strb := [true], last := true,
                        tid := 0, tdest := 0, user := [] } })
        = monStep (stdCfg 1 false) monInit
            { reset := false, valid := true, ready := true,
              word := { data := [9], keep := [false], strb := [true], last := true,
                        tid := 0, tdest := 0, user := [] } } := by
  exact C10_protocol_error_fatal (stdCfg 1 false) monInit
    { reset := false, valid := true, ready := true,
      word := { data := [9], keep := [false], strb := [true], last := true,
                tid := 0, tdest := 0, user := [] } }
    rfl rfl rfl rfl (by decide)

/-- C7: the spec's concrete scenario.  Encoding [0x11,0x22,0x33,0x44,0x55]
at width 4 with lsb_first produces exactly two words — the lane-reversed
full word with keep 1111 and tlast low, then a tail word with the real byte
in the low lane, the three high lanes padded, keep 0001 and tlast high —
for every value the pad lanes may carry, and replaying the two words into
the monitor emits exactly the original byte sequence. -/
theorem C7_concrete_scenario (pad : Nat) :
    sendBytes 4 true pad [0x11, 0x22, 0x33, 0x44, 0x55] =
      [{ data := [0x44, 0x33, 0x22, 0x11], keep := [true, true, true, true],
         strb := [true, true, true, true], last := false, tid := 0, tdest := 0, user := [] },
       { data := [pad, pad, pad, 0x55], keep := [false, false, false, true],
         strb := [false, false, false, true], last := true, tid := 0, tdest := 0, user := [] }] ∧
    (monRun (stdCfg 4 true) (cyclesOf (sendBytes 4 true pad [0x11, 0x22, 0x33, 0x44, 0x55]))
        monInit).emitted = [((none, none), [0x11, 0x22, 0x33, 0x44, 0x55])] := by
  exact ⟨rfl, rfl⟩

/-- Witness for C7 at a concrete pad value. -/
theorem C7_concrete_scenario_witness :
    sendBytes 4 true 0xAA [0x11, 0x22, 0x33, 0x44, 0x55] =
      [{ data := [0x44, 0x33, 0x22, 0x11], keep := [true, true, true, true],
         strb := [true, true, true, true], last := false, tid := 0, tdest := 0, user := [] },
       { data := [0xAA, 0xAA, 0xAA, 0x55], keep := [false, false, false, true],
         strb := [false, false, false, true], last := true, tid := 0, tdest := 0, user := [] }] ∧
    (monRun (stdCfg 4 true) (cyclesOf (sendBytes 4 true 0xAA [0x11, 0x22, 0x33, 0x44, 0x55]))
        monInit).emitted = [((none, none), [0x11, 0x22, 0x33, 0x44, 0x55])] :=
  C7_concrete_scenario 0xAA

/-- C9: construction of a driver or monitor instance fails exactly when the
data signal's bit width is not a multiple of 8, or — for the monitor in
byte-wise user mode — when the user signal's bit width is not a multiple of
the byte-lane count; the checks are performed by the constructors
themselves, before any bus activity.  A present HDL data signal has a
positive bit width. -/
theorem C9_construction_width_checks (hasData : Bool) (dataWidth : Nat) (hasUser : Bool)
    (userWidth : Nat) (bytewise : Bool) (hpos : hasData = true → 0 < dataWidth) :
    ((masterInit hasData dataWidth).isOk = false ↔ hasData = true ∧ dataWidth % 8 ≠ 0) ∧
    ((monitorInit hasData dataWidth hasUser userWidth bytewise).isOk = false ↔
      (hasData = true ∧ dataWidth % 8 ≠ 0) ∨
      (hasUser = true ∧ bytewise = true ∧
        userWidth % (if hasData then dataWidth / 8 else 1) ≠ 0)) := by
  constructor
  · cases hasData with
    | false => simp [masterInit, Except.isOk, Except.toBool, Except.toBool]
    | true =>
        by_cases h8 : dataWidth % 8 = 0
        · simp [masterInit, h8, Except.isOk, Except.toBool, Except.toBool]
        · simp [masterInit, h8, Except.isOk, Except.toBool, Except.toBool]
  · cases hasData with
    | false =>
        cases hasUser <;> cases bytewise <;>
          simp [monitorInit, masterInit, Except.isOk, Except.toBool, Nat.mod_one]
    | true =>
        by_cases h8 : dataWidth % 8 = 0
        · have hdvd : 8 ∣ dataWidth := Nat.dvd_of_mod_eq_zero h8
          have hle : 8 ≤ dataWidth := Nat.le_of_dvd (hpos rfl) hdvd
          have hnz : dataWidth / 8 ≠ 0 := by
            have h1 : 1 ≤ dataWidth / 8 := (Nat.one_le_div_iff (by norm_num)).mpr hle
            omega
          cases hasUser with
          | false => simp [monitorInit, masterInit, h8, Except.isOk, Except.toBool, Except.toBool]
          | true =>
              cases bytewise with
              | false => simp [monitorInit, masterInit, h8, Except.isOk, Except.toBool, Except.toBool]
              | true =>
                  by_cases hu : userWidth % (dataWidth / 8) = 0
                  · simp [monitorInit, masterInit, h8, Except.isOk, Except.toBool, hnz, hu]
                  · simp [monitorInit, masterInit, h8, Except.isOk, Except.toBool, hnz, hu]
        · simp [monitorInit, masterInit, h8, Except.isOk, Except.toBool, Except.toBool]

/-- Witness for C9 at concrete widths: a 16-bit data bus (two byte lanes)
with a 5-bit user signal in byte-wise mode fails construction, since 5 is
not a multiple of 2. -/
theorem C9_construction_width_checks_witness :
    ((masterInit true 16).isOk = false ↔ true = true ∧ 16 % 8 ≠ 0) ∧
    ((monitorInit true 16 true 5 true).isOk = false ↔
      (true = true ∧ 16 % 8 ≠ 0) ∨
      (true = true ∧ true = true ∧ 5 % (if true then 16 / 8 else 1) ≠ 0)) :=
  C9_construction_width_checks true 16 true 5 true (fun _ => by norm_num)

/-! ### Decoding the words built by the encoder -/

theorem listGetD_append_left {α : Type _} (l₁ l₂ : List α) (d : α) (i : Nat)
    (h : i < l₁.length) : (l₁ ++ l₂).getD i d = l₁.getD i d := by
  simp [List.getD_eq_getElem?_getD, List.getElem?_append_left h]

theorem listGetD_append_right {α : Type _} (l₁ l₂ : List α) (d : α) (i : Nat)
    (h : l₁.length ≤ i) : (l₁ ++ l₂).getD i d = l₂.getD (i - l₁.length) d := by
  simp [List.getD_eq_getElem?_getD, List.getElem?_append_right h]

theorem listGetD_replicate {α : Type _} (a d : α) (m i : Nat) (h : i < m) :
    (List.replicate m a).getD i d = a := by
  simp [List.getD_eq_getElem?_getD, List.getElem?_replicate, h]

theorem listGetD_reverse {α : Type _} (l : List α) (d : α) (i : Nat) (h : i < l.length) :
    l.reverse.getD i d = l.getD (l.length - 1 - i) d := by
  simp [List.getD_eq_getElem?_getD, List.getElem?_reverse h]

theorem listGetD_cons_eq {α : Type _} (l : List α) (d : α) (i : Nat) (h : i < l.length) :
    l.drop i = l.getD i d :: l.drop (i + 1) := by
  rw [List.drop_eq_getElem_cons h]
  congr 1
  rw [List.getD_eq_getElem?_getD, List.getElem?_eq_getElem h]
  rfl

/-- Scanning the lanes of an msb-first encoder word from index `s` upward:
the first `C.length` lanes are data lanes carrying the chunk bytes in
order, the remaining lanes are null. -/
theorem filterLanes_msb_scan (C : List Nat) (p pad : Nat) (lw : Bool) :
    ∀ (m s : Nat), s + m = C.length + p →
      filterLanes
        { data := C ++ List.replicate p pad,
          keep := List.replicate C.length true ++ List.replicate p false,
          strb := List.replicate C.length true ++ List.replicate p false,
          last := lw, tid := 0, tdest := 0, user := [] }
        (List.replicate C.length true ++ List.replicate p false)
        (List.replicate C.length true ++ List.replicate p false)
        (List.range' s m 1) =
      Except.ok (C.drop s, List.replicate (C.length - s) 0) := by
  intro m
  induction m with
  | zero =>
      intro s hs
      have h1 : C.drop s = [] := List.drop_eq_nil_of_le (by omega)
      have h2 : C.length - s = 0 := by omega
      simp [filterLanes, h1, h2]
  | succ m ih =>
      intro s hs
      rw [List.range'_succ s m 1]
      by_cases hsc : s < C.length
      · have hkeep :
            (List.replicate C.length true ++ List.replicate p false).getD s false = true := by
          rw [listGetD_append_left _ _ _ _ (by simpa using hsc)]
          exact listGetD_replicate _ _ _ _ hsc
        have hdata : (C ++ List.replicate p pad).getD s 0 = C.getD s 0 :=
          listGetD_append_left _ _ _ _ hsc
        have hbt : byteType true true = LaneClass.data := rfl
        simp only [filterLanes, hkeep, hbt]
        rw [ih (s + 1) (by omega)]
        simp only [Except.map, hdata]
        have hdrop := listGetD_cons_eq C 0 s hsc
        have hrep : C.length - s = (C.length - (s + 1)) + 1 := by omega
        rw [hdrop.symm]
        rw [hrep, List.replicate_succ]
        simp [List.getD_nil]
      · have hkeep :
            (List.replicate C.length true ++ List.replicate p false).getD s false = false := by
          rw [listGetD_append_right _ _ _ _ (by simpa using Nat.le_of_not_lt hsc)]
          exact listGetD_replicate _ _ _ _ (by simp; omega)
        have hbt : byteType false false = LaneClass.null := rfl
        simp only [filterLanes, hkeep, hbt]
        rw [ih (s + 1) (by omega)]
        have h1 : C.drop s = C.drop (s + 1) := by
          rw [List.drop_eq_nil_of_le (by omega), List.drop_eq_nil_of_le (by omega)]
        have h2 : C.length - s = C.length - (s + 1) := by omega
        rw [h1, h2]

/-- Scanning the lanes of an lsb-first encoder word in the monitor's
descending index order `m-1, ..., 0`: the high indices (at or above `p`)
are data lanes yielding the chunk bytes in original order, the low `p`
indices are null pad lanes. -/
theorem filterLanes_lsb_scan (C : List Nat) (p pad : Nat) (lw : Bool) :
    ∀ (m : Nat), m ≤ p + C.length →
      filterLanes
        { data := List.replicate p pad ++ C.reverse,
          keep := List.replicate p false ++ List.replicate C.length true,
          strb := List.replicate p false ++ List.replicate C.length true,
          last := lw, tid := 0, tdest := 0, user := [] }
        (List.replicate p false ++ List.replicate C.length true)
        (List.replicate p false ++ List.replicate C.length true)
        ((List.range m).reverse) =
      Except.ok (C.drop (C.length - (m - p)), List.replicate (m - p) 0) := by
  intro m
  induction m with
  | zero =>
      have h1 : C.drop (C.length - 0) = [] := List.drop_eq_nil_of_le (by omega)
      intro _
      simp [filterLanes, h1]
  | succ m ih =>
      intro hm
      have hrev : (List.range (m + 1)).reverse = m :: (List.range m).reverse := by
        rw [List.range_succ]
        simp
      rw [hrev]
      by_cases hmp : m < p
      · have hkeep :
            (List.replicate p false ++ List.replicate C.length true).getD m false = false := by
          rw [listGetD_append_left _ _ _ _ (by simpa using hmp)]
          exact listGetD_replicate _ _ _ _ hmp
        have hbt : byteType false false = LaneClass.null := rfl
        simp only [filterLanes, hkeep, hbt]
        rw [ih (by omega)]
        have h1 : m - p = 0 := by omega
        have h2 : m + 1 - p = 0 := by omega
        rw [h1, h2]
      · have hple : p ≤ m := Nat.le_of_not_lt hmp
        have hlt : m - p < C.length := by omega
        have hkeep :
            (List.replicate p false ++ List.replicate C.length true).getD m false = true := by
          rw [listGetD_append_right _ _ _ _ (by simpa using hple)]
          simp only [List.length_replicate]
          exact listGetD_replicate _ _ _ _ hlt
        have hdata : (List.replicate p pad ++ C.reverse).getD m 0
              = C.getD (C.length - 1 - (m - p)) 0 := by
          rw [listGetD_append_right _ _ _ _ (by simpa using hple)]
          simp only [List.length_replicate]
          exact listGetD_reverse C 0 (m - p) (by simpa using hlt)
        have hbt : byteType true true = LaneClass.data := rfl
        simp only [filterLanes, hkeep, hbt]
        rw [ih (by omega)]
        simp only [Except.map, hdata]
        have hj : C.length - 1 - (m - p) = C.length - (m - p) - 1 := by omega
        have hdrop := listGetD_cons_eq C 0 (C.length - (m - p) - 1) (by omega)
        have hj2 : C.length - (m - p) - 1 + 1 = C.length - (m - p) := by omega
        rw [hj2] at hdrop
        have hgoal1 : C.length - (m + 1 - p) = C.length - (m - p) - 1 := by omega
        have hrep : m + 1 - p = (m - p) + 1 := by omega
        rw [hj, hgoal1, hdrop, hrep, List.replicate_succ]
        simp [List.getD_nil]

/-- Decoding any word the encoder builds, with matching endianness and all
qualifier signals present, recovers exactly the chunk the word was built
from: pad lanes contribute nothing to either the payload or the byte-wise
user list, and each real byte contributes one zero user entry (the encoder
drives no tuser). -/
theorem filterWord_mkWord (n : Nat) (lsb : Bool) (pad : Nat) (lw : Bool) (chunk : List Nat)
    (hc : chunk.length ≤ n) :
    filterWord (stdCfg n lsb) (mkWord n lsb pad lw chunk) =
      Except.ok (chunk, List.replicate chunk.length 0) := by
  have hp : n - (n - chunk.length) = chunk.length := by omega
  cases lsb with
  | false =>
      have h := filterLanes_msb_scan chunk (n - chunk.length) pad lw n 0 (by omega)
      simp only [filterWord, effKeep, effStrb, byteRange, stdCfg, mkWord, hp,
        Bool.false_eq_true, if_false, if_true, List.range_eq_range' n]
      simpa using h
  | true =>
      have h := filterLanes_lsb_scan chunk (n - chunk.length) pad lw n (by omega)
      rw [hp] at h
      simp only [Nat.sub_self, List.drop_zero] at h
      simp only [filterWord, effKeep, effStrb, byteRange, stdCfg, mkWord, hp,
        Bool.true_eq_false, if_false, if_true]
      simpa using h

/-- Position of the final word in the driven word list: for a byte count
that is not a multiple of the lane count, `_send_bytes` ends with a word
built from the short tail slice `bytestr[len - len % n :]` with last_word
set. -/
theorem sendBytesAux_getLast (n : Nat) (hn : 0 < n) (lsb : Bool) (pad : Nat) :
    ∀ (fuel : Nat) (bs : List Nat), bs ≠ [] → bs.length ≤ fuel → bs.length % n ≠ 0 →
      (sendBytesAux n lsb pad fuel bs).getLast? =
        some (mkWord n lsb pad true (bs.drop (bs.length - bs.length % n))) := by
  intro fuel
  induction fuel with
  | zero =>
      intro bs hne hlen _
      cases bs with
      | nil => exact absurd rfl hne
      | cons b t => simp at hlen
  | succ fuel ih =>
      intro bs hne hlen hrem
      cases bs with
      | nil => exact absurd rfl hne
      | cons b t =>
          have hunf : sendBytesAux n lsb pad (fuel + 1) (b :: t) =
              mkWord n lsb pad (t.drop (n - 1)).isEmpty (b :: t.take (n - 1)) ::
                sendBytesAux n lsb pad fuel (t.drop (n - 1)) := rfl
          by_cases hrest : t.drop (n - 1) = []
          · have htlen : t.length ≤ n - 1 := by
              have hld := List.length_drop (n - 1) t
              rw [hrest] at hld
              simp only [List.length_nil] at hld
              omega
            have hlt : (b :: t).length < n := by
              rcases Nat.lt_or_ge (b :: t).length n with h | h
              · exact h
              · exfalso
                have heq : (b :: t).length = n := by
                  simp only [List.length_cons] at h ⊢
                  omega
                rw [heq, Nat.mod_self] at hrem
                exact hrem rfl
            have hmod : (b :: t).length % n = (b :: t).length := Nat.mod_eq_of_lt hlt
            have htake : t.take (n - 1) = t := List.take_of_length_le htlen
            rw [hunf, hrest, hmod, htake]
            simp [sendBytesAux]
          · have htgt : n - 1 < t.length := by
              rcases Nat.lt_or_ge (n - 1) t.length with h | h
              · exact h
              · exact absurd (List.drop_eq_nil_of_le h) hrest
            have hlen_gt : n < (b :: t).length := by
              simp only [List.length_cons]
              omega
            have hrl : (t.drop (n - 1)).length = (b :: t).length - n := by
              rw [List.length_drop]
              simp only [List.length_cons]
              omega
            have hdropn : (b :: t).drop n = t.drop (n - 1) := by
              have hn1 : n = (n - 1) + 1 := by omega
              rw [hn1]
              exact List.drop_succ_cons
            have hmodeq : (t.drop (n - 1)).length % n = (b :: t).length % n := by
              have heq : (b :: t).length = (t.drop (n - 1)).length + n := by
                rw [hrl]
                omega
              rw [heq, Nat.add_mod_right]
            have hih := ih (t.drop (n - 1)) hrest (by rw [hrl]; omega)
              (by rw [hmodeq]; exact hrem)
            obtain ⟨r, rs, hrs⟩ := List.exists_cons_of_ne_nil hrest
            cases fuel with
            | zero =>
                exfalso
                simp only [List.length_cons] at hlen
                omega
            | succ f =>
                have hcons : sendBytesAux n lsb pad (f + 1) (r :: rs) =
                    mkWord n lsb pad (rs.drop (n - 1)).isEmpty (r :: rs.take (n - 1)) ::
                      sendBytesAux n lsb pad f (rs.drop (n - 1)) := rfl
                rw [hunf]
                rw [show t.drop (n - 1) = r :: rs from hrs] at hih ⊢
                rw [hcons, List.getLast?_cons_cons, ← hcons, hih]
                have hfinal : (r :: rs).drop ((r :: rs).length - (r :: rs).length % n)
                    = (b :: t).drop ((b :: t).length - (b :: t).length % n) := by
                  rw [← hrs, ← hdropn, List.drop_drop]
                  congr 1
                  rw [hdropn, hrs]
                  rw [hrs] at hmodeq hrl
                  rw [hmodeq, hrl]
                  have key : ∀ lm : Nat, lm ≤ (b :: t).length - n →
                      n + ((b :: t).length - n - lm) = (b :: t).length - lm := by
                    intro lm hlm
                    omega
                  refine key _ ?_
                  rw [← hmodeq, ← hrl]
                  exact Nat.mod_le _ _
                rw [hfinal]

theorem mkWord_strb_eq_keep (n : Nat) (lsb : Bool) (pad : Nat) (lw : Bool) (chunk : List Nat) :
    (mkWord n lsb pad lw chunk).strb = (mkWord n lsb pad lw chunk).keep := rfl

theorem mkWord_padLane_lsb (n pad : Nat) (lw : Bool) (chunk : List Nat) (b : Nat)
    (hb : b < n - chunk.length) :
    (mkWord n true pad lw chunk).keep.getD b false = false := by
  show (List.replicate (n - chunk.length) false ++
    List.replicate (n - (n - chunk.length)) true).getD b false = false
  rw [listGetD_append_left _ _ _ _ (by simpa using hb)]
  exact listGetD_replicate _ _ _ _ hb

theorem mkWord_padLane_msb (n pad : Nat) (lw : Bool) (chunk : List Nat) (b : Nat)
    (hc : chunk.length ≤ n) (hb1 : chunk.length ≤ b) (hb2 : b < n) :
    (mkWord n false pad lw chunk).keep.getD b false = false := by
  show (List.replicate (n - (n - chunk.length)) true ++
    List.replicate (n - chunk.length) false).getD b false = false
  have hnp : n - (n - chunk.length) = chunk.length := by omega
  rw [hnp]
  rw [listGetD_append_right _ _ _ _ (by simpa using hb1)]
  refine listGetD_replicate _ _ _ _ ?_
  simp only [List.length_replicate]
  omega

/-- C8 counterexample: with bus width 2 and the one-byte payload [0x11] the
final (and only) driven word carries keep = strb = "01", so its padding
lane resolves to Null — not Position — and the byte-wise side-channel
output of its decode has exactly one entry (for the real byte), with no
zero placeholder for the padding lane. -/
theorem C8_pad_lane_is_null_not_position :
    sendBytes 2 true 0 [0x11] =
      [{ data := [0, 0x11], keep := [false, true], strb := [false, true], last := true,
         tid := 0, tdest := 0, user := [] }] ∧
    byteType false false = LaneClass.null ∧
    ¬ byteType false false = LaneClass.position ∧
    (filterWord (stdCfg 2 true)
        { data := [0, 0x11], keep := [false, true], strb := [false, true], last := true,
          tid := 0, tdest := 0, user := [] }).map (fun p => p.2.length) = Except.ok 1 ∧
    ¬ (filterWord (stdCfg 2 true)
        { data := [0, 0x11], keep := [false, true], strb := [false, true], last := true,
          tid := 0, tdest := 0, user := [] }).map (fun p => p.2.length) = Except.ok 2 := by
  decide

/-- C8 (amended): for every byte sequence whose length is not a multiple of
the bus width, the final driven word is built from the short tail slice
with last set, its padding lanes carry keep = strb = 0 and are therefore
Null-classified on decode (not Position-classified), and decoding the
final word yields exactly the tail bytes — the padding lanes are excluded
from the reconstructed payload and contribute no placeholder to the
byte-wise side-channel list either (one zero user entry appears per real
byte, none per padding lane). -/
theorem C8_final_word_padding (n : Nat) (lsb : Bool) (pad : Nat) (bs : List Nat)
    (hn : 0 < n) (hbs : bs ≠ []) (hrem : bs.length % n ≠ 0) :
    (sendBytes n lsb pad bs).getLast? =
      some (mkWord n lsb pad true (bs.drop (bs.length - bs.length % n))) ∧
    (bs.drop (bs.length - bs.length % n)).length = bs.length % n ∧
    (∀ b : Nat, b < n →
      (if lsb then b < n - bs.length % n else bs.length % n ≤ b) →
      byteType ((mkWord n lsb pad true (bs.drop (bs.length - bs.length % n))).keep.getD b false)
               ((mkWord n lsb pad true (bs.drop (bs.length - bs.length % n))).strb.getD b false)
        = LaneClass.null) ∧
    filterWord (stdCfg n lsb) (mkWord n lsb pad true (bs.drop (bs.length - bs.length % n)))
      = Except.ok (bs.drop (bs.length - bs.length % n), List.replicate (bs.length % n) 0) := by
  have hmodle : bs.length % n ≤ bs.length := Nat.mod_le bs.length n
  have hmodlt : bs.length % n < n := Nat.mod_lt bs.length hn
  have hlen : (bs.drop (bs.length - bs.length % n)).length = bs.length % n := by
    rw [List.length_drop]
    omega
  refine ⟨?_, hlen, ?_, ?_⟩
  · exact sendBytesAux_getLast n hn lsb pad bs.length bs hbs (Nat.le_refl _) hrem
  · intro b hb hcond
    rw [mkWord_strb_eq_keep]
    cases lsb with
    | true =>
        rw [if_pos rfl] at hcond
        have hk := mkWord_padLane_lsb n pad true (bs.drop (bs.length - bs.length % n)) b
          (by rw [hlen]; exact hcond)
        rw [hk]
        rfl
    | false =>
        rw [if_neg (by simp)] at hcond
        have hk := mkWord_padLane_msb n pad true (bs.drop (bs.length - bs.length % n)) b
          (by rw [hlen]; omega) (by rw [hlen]; exact hcond) hb
        rw [hk]
        rfl
  · have hc : (bs.drop (bs.length - bs.length % n)).length ≤ n := by
      rw [hlen]
      omega
    have h := filterWord_mkWord n lsb pad true (bs.drop (bs.length - bs.length % n)) hc
    rw [h, hlen]

/-- Witness for the amended C8 theorem at bus width 2 and payload [0x11]:
the single driven word is the padded tail word, its pad lane (index 0)
resolves to Null, and its decode yields exactly the tail byte with one
zero user entry. -/
theorem C8_final_word_padding_witness :
    (sendBytes 2 true 0 [0x11]).getLast?
        = some (mkWord 2 true 0 true ([0x11].drop ([0x11].length - [0x11].length % 2))) ∧
    byteType
        ((mkWord 2 true 0 true ([0x11].drop ([0x11].length - [0x11].length % 2))).keep.getD 0 false)
        ((mkWord 2 true 0 true ([0x11].drop ([0x11].length - [0x11].length % 2))).strb.getD 0 false)
      = LaneClass.null ∧
    filterWord (stdCfg 2 true) (mkWord 2 true 0 true ([0x11].drop ([0x11].length - [0x11].length % 2)))
      = Except.ok ([0x11].drop ([0x11].length - [0x11].length % 2),
          List.replicate ([0x11].length % 2) 0) := by
  have h := C8_final_word_padding 2 true 0 [0x11] (by norm_num) (by decide) (by decide)
  exact ⟨h.1, h.2.2.1 0 (by norm_num) (by decide), h.2.2.2⟩

/-! ### Key independence of the reassembler -/

theorem monStep_accepted (cfg : MonitorCfg) (s : MonState) (c : BusCycle)
    (hdead : s.dead = false) (hr : c.reset = false) (hv : c.valid = true) (hrd : c.ready = true)
    (fd : List Nat × List Nat) (hok : filterWord cfg c.word = Except.ok fd) :
    monStep cfg s c =
      if isLastWord cfg c.word then
        match s.buf (streamKey cfg c.word) with
        | some chunks =>
            { s with
              emitted := s.emitted ++ [(streamKey cfg c.word, chunks.flatten ++ fd.1)],
              buf := fun k2 => if k2 = streamKey cfg c.word then none
                               else s.buf k2 }
        | none => s
      else
        match s.buf (streamKey cfg c.word) with
        | some chunks =>
            { s with buf := fun k2 => if k2 = streamKey cfg c.word then some (chunks ++ [fd.1])
                                      else s.buf k2 }
        | none =>
            { s with buf := fun k2 => if k2 = streamKey cfg c.word then some [fd.1]
                                      else s.buf k2 } := by
  simp [monStep, hdead, hr, hv, hrd, hok]

theorem wordData_of_ok (cfg : MonitorCfg) (w : AxisWord) (fd : List Nat × List Nat)
    (hok : filterWord cfg w = Except.ok fd) : wordData cfg w = fd.1 := by
  simp [wordData, hok, Except.toOption]

theorem wordsFor_cons (cfg : MonitorCfg) (k : StreamKey) (c : BusCycle) (cs : List BusCycle) :
    wordsFor cfg k (c :: cs) =
      if streamKey cfg c.word = k then c.word :: wordsFor cfg k cs else wordsFor cfg k cs := by
  simp only [wordsFor, List.map_cons, List.filter_cons]
  by_cases h : streamKey cfg c.word = k
  · simp [h]
  · simp [h]

/-- Key independence of the receive loop: over any run of accepted,
error-free cycles, the pending buffer and the emitted packets of one
stream key depend only on the subsequence of words carrying that key,
exactly as the single-slot projection `runKey` computes them. -/
theorem monRun_key_locality (cfg : MonitorCfg) (k : StreamKey) :
    ∀ (cs : List BusCycle) (s : MonState), s.dead = false →
      (∀ c ∈ cs, c.reset = false ∧ c.valid = true ∧ c.ready = true ∧
        (filterWord cfg c.word).isOk = true) →
      (monRun cfg cs s).dead = false ∧
      (monRun cfg cs s).buf k = (runKey cfg (wordsFor cfg k cs) (s.buf k)).2 ∧
      (monRun cfg cs s).emitted.filter (fun pr => pr.1 = k) =
        s.emitted.filter (fun pr => pr.1 = k) ++
          (runKey cfg (wordsFor cfg k cs) (s.buf k)).1.map (fun d => (k, d)) := by
  intro cs
  induction cs with
  | nil =>
      intro s hdead _
      exact ⟨hdead, rfl, by simp [wordsFor, runKey, monRun]⟩
  | cons c cs ih =>
      intro s hdead hacc
      obtain ⟨hr, hv, hrd, hokb⟩ := hacc c (List.mem_cons_self c cs)
      have hacc2 : ∀ x ∈ cs, x.reset = false ∧ x.valid = true ∧ x.ready = true ∧
          (filterWord cfg x.word).isOk = true :=
        fun x hx => hacc x (List.mem_cons_of_mem c hx)
      obtain ⟨fd, hfd⟩ : ∃ fd, filterWord cfg c.word = Except.ok fd := by
        cases hres : filterWord cfg c.word with
        | ok p => exact ⟨p, rfl⟩
        | error e =>
            rw [hres] at hokb
            simp [Except.isOk, Except.toBool] at hokb
      have hwd := wordData_of_ok cfg c.word fd hfd
      rw [monRun_cons, wordsFor_cons]
      by_cases hks : streamKey cfg c.word = k
      · rw [if_pos hks]
        cases hlast : isLastWord cfg c.word with
        | true =>
            cases hbuf : s.buf k with
            | some chunks =>
                have hstep : monStep cfg s c =
                    { s with
                      emitted := s.emitted ++ [(k, chunks.flatten ++ fd.1)],
                      buf := fun k2 => if k2 = k then none else s.buf k2 } := by
                  simp [monStep, hdead, hr, hv, hrd, hfd, hlast, hks, hbuf]
                have hrk : runKey cfg (c.word :: wordsFor cfg k cs) (some chunks) =
                    ((chunks.flatten ++ wordData cfg c.word) ::
                        (runKey cfg (wordsFor cfg k cs) none).1,
                     (runKey cfg (wordsFor cfg k cs) none).2) := by
                  simp [runKey, hlast]
                rw [hstep]
                obtain ⟨ihd, ihb, ihe⟩ := ih
                  { s with
                    emitted := s.emitted ++ [(k, chunks.flatten ++ fd.1)],
                    buf := fun k2 => if k2 = k then none else s.buf k2 } hdead hacc2
                refine ⟨ihd, ?_, ?_⟩
                · rw [ihb, hrk]
                  simp
                · rw [ihe, hrk, hwd]
                  simp [List.filter_append]
            | none =>
                have hstep : monStep cfg s c = s := by
                  simp [monStep, hdead, hr, hv, hrd, hfd, hlast, hks, hbuf]
                have hrk : runKey cfg (c.word :: wordsFor cfg k cs) none =
                    runKey cfg (wordsFor cfg k cs) none := by
                  simp [runKey, hlast]
                rw [hstep]
                obtain ⟨ihd, ihb, ihe⟩ := ih s hdead hacc2
                refine ⟨ihd, ?_, ?_⟩
                · rw [ihb, hrk, hbuf]
                · rw [ihe, hrk, hbuf]
        | false =>
            cases hbuf : s.buf k with
            | some chunks =>
                have hstep : monStep cfg s c =
                    { s with
                      buf := fun k2 => if k2 = k then some (chunks ++ [fd.1]) else s.buf k2 } := by
                  simp [monStep, hdead, hr, hv, hrd, hfd, hlast, hks, hbuf]
                have hrk : runKey cfg (c.word :: wordsFor cfg k cs) (some chunks) =
                    runKey cfg (wordsFor cfg k cs)
                      (some (chunks ++ [wordData cfg c.word])) := by
                  simp [runKey, hlast]
                rw [hstep]
                obtain ⟨ihd, ihb, ihe⟩ := ih
                  { s with
                    buf := fun k2 => if k2 = k then some (chunks ++ [fd.1]) else s.buf k2 }
                  hdead hacc2
                refine ⟨ihd, ?_, ?_⟩
                · rw [ihb, hrk, hwd]
                  simp
                · rw [ihe, hrk, hwd]
                  simp
            | none =>
                have hstep : monStep cfg s c =
                    { s with
                      buf := fun k2 => if k2 = k then some [fd.1] else s.buf k2 } := by
                  simp [monStep, hdead, hr, hv, hrd, hfd, hlast, hks, hbuf]
                have hrk : runKey cfg (c.word :: wordsFor cfg k cs) none =
                    runKey cfg (wordsFor cfg k cs) (some [wordData cfg c.word]) := by
                  simp [runKey, hlast]
                rw [hstep]
                obtain ⟨ihd, ihb, ihe⟩ := ih
                  { s with
                    buf := fun k2 => if k2 = k then some [fd.1] else s.buf k2 }
                  hdead hacc2
                refine ⟨ihd, ?_, ?_⟩
                · rw [ihb, hrk, hwd]
                  simp
                · rw [ihe, hrk, hwd]
                  simp
      · rw [if_neg hks]
        have hstep := monStep_accepted cfg s c hdead hr hv hrd fd hfd
        have hks2 : ¬(k = streamKey cfg c.word) := fun h => hks h.symm
        have hsd : (monStep cfg s c).dead = false := by
          rw [hstep]
          split <;> split <;> simp [hdead]
        have hsb : (monStep cfg s c).buf k = s.buf k := by
          rw [hstep]
          split <;> split <;> simp [hks2]
        have hse : (monStep cfg s c).emitted.filter (fun pr => pr.1 = k) =
            s.emitted.filter (fun pr => pr.1 = k) := by
          rw [hstep]
          split <;> split <;> simp [List.filter_append, hks]
        obtain ⟨ihd, ihb, ihe⟩ := ih (monStep cfg s c) hsd hacc2
        refine ⟨ihd, ?_, ?_⟩
        · rw [ihb, hsb]
        · rw [ihe, hse, hsb]

theorem runKey_cons_notlast (cfg : MonitorCfg) (w : AxisWord) (ws : List AxisWord)
    (slot : Option (List (List Nat))) (h : isLastWord cfg w = false) :
    runKey cfg (w :: ws) slot =
      runKey cfg ws (some (slot.getD [] ++ [wordData cfg w])) := by
  cases slot <;> simp [runKey, h]

/-- Feeding one key's packet words into the single-slot projection with a
pending buffer emits exactly one payload: the buffered chunks followed by
every word's bytes, and clears the slot. -/
theorem runKey_some_packet (cfg : MonitorCfg) (hcl : cfg.hasLast = true) :
    ∀ (ws : List AxisWord) (acc : List (List Nat)),
      ws ≠ [] →
      (∀ w ∈ ws.dropLast, w.last = false) →
      ws.getLast?.all (fun w => w.last) = true →
      runKey cfg ws (some acc) = ([acc.flatten ++ payloadOf cfg ws], none) := by
  intro ws
  induction ws with
  | nil =>
      intro acc h _ _
      exact absurd rfl h
  | cons w ws ih =>
      intro acc _ hmid hfin
      cases ws with
      | nil =>
          have hw : w.last = true := by
            simpa [List.getLast?] using hfin
          have hl : isLastWord cfg w = true := by
            simp [isLastWord, hw]
          simp [runKey, hl, payloadOf]
      | cons w2 ws2 =>
          have hw : w.last = false := by
            refine hmid w ?_
            rw [List.dropLast_cons₂]
            exact List.mem_cons_self w _
          have hl : isLastWord cfg w = false := by
            simp [isLastWord, hcl, hw]
          have hmid2 : ∀ x ∈ (w2 :: ws2).dropLast, x.last = false := by
            intro x hx
            refine hmid x ?_
            rw [List.dropLast_cons₂]
            exact List.mem_cons_of_mem w hx
          have hfin2 : (w2 :: ws2).getLast?.all (fun w => w.last) = true := by
            simpa [List.getLast?_cons_cons] using hfin
          have hrec := ih (acc ++ [wordData cfg w]) (List.cons_ne_nil w2 ws2) hmid2 hfin2
          rw [runKey_cons_notlast cfg w (w2 :: ws2) (some acc) hl]
          simp only [Option.getD_some]
          rw [hrec]
          simp [payloadOf, List.flatten_append, List.append_assoc]

/-- A fresh multi-word packet fed into the single-slot projection emits
exactly its own payload and leaves the slot empty (the first word opens the
slot, so the dropped no-buffer branch is never taken). -/
theorem runKey_fresh_packet (cfg : MonitorCfg) (hcl : cfg.hasLast = true)
    (ws : List AxisWord) (hlen : 2 ≤ ws.length)
    (hmid : ∀ w ∈ ws.dropLast, w.last = false)
    (hfin : ws.getLast?.all (fun w => w.last) = true) :
    runKey cfg ws none = ([payloadOf cfg ws], none) := by
  cases ws with
  | nil => simp at hlen
  | cons w ws1 =>
      cases ws1 with
      | nil => simp at hlen
      | cons w2 ws2 =>
          have hw : w.last = false := by
            refine hmid w ?_
            rw [List.dropLast_cons₂]
            exact List.mem_cons_self w _
          have hl : isLastWord cfg w = false := by
            simp [isLastWord, hcl, hw]
          have hmid2 : ∀ x ∈ (w2 :: ws2).dropLast, x.last = false := by
            intro x hx
            refine hmid x ?_
            rw [List.dropLast_cons₂]
            exact List.mem_cons_of_mem w hx
          have hfin2 : (w2 :: ws2).getLast?.all (fun w => w.last) = true := by
            simpa [List.getLast?_cons_cons] using hfin
          have h := runKey_some_packet cfg hcl (w2 :: ws2) [wordData cfg w]
            (List.cons_ne_nil w2 ws2) hmid2 hfin2
          rw [runKey_cons_notlast cfg w (w2 :: ws2) none hl]
          simp only [Option.getD_none, List.nil_append]
          rw [h]
          simp [payloadOf]

/-- C6 counterexample: interleaving a single-word stream (key id=0) with a
two-word stream (key id=1) yields only ONE completed packet — the
single-word stream's last word finds no pending buffer and is dropped by
the monitor's `except KeyError` branch, so the claim's promise of two
independent CompletedPackets fails when a key's sequence has one word. -/
theorem C6_single_word_stream_no_packet :
    (monRun
        { nBytes := 1, lsbFirst := true, hasKeep := true, hasStrb := true,
          hasLast := true, hasId := true, hasDest := false }
        [{ reset := false, valid := true, ready := true,
           word := { data := [0xA1], keep := [true], strb := [true], last := true,
                     tid := 0, tdest := 0, user := [] } },
         { reset := false, valid := true, ready := true,
           word := { data := [0xB1], keep := [true], strb := [true], last := false,
                     tid := 1, tdest := 0, user := [] } },
         { reset := false, valid := true, ready := true,
           word := { data := [0xB2], keep := [true], strb := [true], last := true,
                     tid := 1, tdest := 0, user := [] } }] monInit).emitted
      = [((some 1, none), [0xB1, 0xB2])] ∧
    (monRun
        { nBytes := 1, lsbFirst := true, hasKeep := true, hasStrb := true,
          hasLast := true, hasId := true, hasDest := false }
        [{ reset := false, valid := true, ready := true,
           word := { data := [0xA1], keep := [true], strb := [true], last := true,
                     tid := 0, tdest := 0, user := [] } },
         { reset := false, valid := true, ready := true,
           word := { data := [0xB1], keep := [true], strb := [true], last := false,
                     tid := 1, tdest := 0, user := [] } },
         { reset := false, valid := true, ready := true,
           word := { data := [0xB2], keep := [true], strb := [true], last := true,
                     tid := 1, tdest := 0, user := [] } }] monInit).emitted.filter
        (fun pr => pr.1 = ((some 0, none) : StreamKey)) = [] := by
  decide

/-- C6 (amended): for every pair of word sequences belonging to two
distinct stream keys, each spanning at least two words (so the first word
of each packet opens a pending buffer before its last word arrives), and
every interleaving of those words on an accepted, error-free bus that
preserves each key's internal order, the reassembler emits exactly one
completed packet per key, each containing exactly the byte content of its
own key's words, regardless of the interleaving order. -/
theorem C6_interleaved_streams (cfg : MonitorCfg) (hcl : cfg.hasLast = true)
    (k1 k2 : StreamKey) (hkk : k1 ≠ k2) (ws1 ws2 : List AxisWord) (cs : List BusCycle)
    (hacc : ∀ c ∈ cs, c.reset = false ∧ c.valid = true ∧ c.ready = true ∧
      (filterWord cfg c.word).isOk = true)
    (h1 : wordsFor cfg k1 cs = ws1) (h2 : wordsFor cfg k2 cs = ws2)
    (hp1 : packetWords cfg k1 ws1) (hp2 : packetWords cfg k2 ws2)
    (hlen1 : 2 ≤ ws1.length) (hlen2 : 2 ≤ ws2.length) :
    (monRun cfg cs monInit).emitted.filter (fun pr => pr.1 = k1)
      = [(k1, payloadOf cfg ws1)] ∧
    (monRun cfg cs monInit).emitted.filter (fun pr => pr.1 = k2)
      = [(k2, payloadOf cfg ws2)] := by
  obtain ⟨l1d, l1b, l1e⟩ := monRun_key_locality cfg k1 cs monInit rfl hacc
  obtain ⟨l2d, l2b, l2e⟩ := monRun_key_locality cfg k2 cs monInit rfl hacc
  rw [h1] at l1e
  rw [h2] at l2e
  have r1 := runKey_fresh_packet cfg hcl ws1 hlen1 hp1.2.1 hp1.2.2.1
  have r2 := runKey_fresh_packet cfg hcl ws2 hlen2 hp2.2.1 hp2.2.2.1
  constructor
  · rw [l1e]
    simp [monInit, r1]
  · rw [l2e]
    simp [monInit, r2]

/-- Witness for the amended C6 theorem: two two-word streams with keys
(id=0) and (id=1), genuinely interleaved A1 B1 A2 B2, reconstruct exactly
one packet per key with the correct bytes. -/
theorem C6_interleaved_streams_witness :
    (monRun
      { nBytes := 1, lsbFirst := true, hasKeep := true, hasStrb := true, hasLast := true, hasId := true, hasDest := false }
      [{ reset := false, valid := true, ready := true, word := { data := [0xA1], keep := [true], strb := [true], last := false, tid := 0, tdest := 0, user := [] } },
       { reset := false, valid := true, ready := true, word := { data := [0xB1], keep := [true], strb := [true], last := false, tid := 1, tdest := 0, user := [] } },
       { reset := false, valid := true, ready := true, word := { data := [0xA2], keep := [true], strb := [true], last := true, tid := 0, tdest := 0, user := [] } },
       { reset := false, valid := true, ready := true, word := { data := [0xB2], keep := [true], strb := [true], last := true, tid := 1, tdest := 0, user := [] } }] monInit).emitted.filter
        (fun pr => pr.1 = ((some 0, none) : StreamKey))
      = [(((some 0, none) : StreamKey),
          payloadOf { nBytes := 1, lsbFirst := true, hasKeep := true, hasStrb := true, hasLast := true, hasId := true, hasDest := false }
            [{ data := [0xA1], keep := [true], strb := [true], last := false, tid := 0, tdest := 0, user := [] },
       { data := [0xA2], keep := [true], strb := [true], last := true, tid := 0, tdest := 0, user := [] }])] ∧
    (monRun
      { nBytes := 1, lsbFirst := true, hasKeep := true, hasStrb := true, hasLast := true, hasId := true, hasDest := false }
      [{ reset := false, valid := true, ready := true, word := { data := [0xA1], keep := [true], strb := [true], last := false, tid := 0, tdest := 0, user := [] } },
       { reset := false, valid := true, ready := true, word := { data := [0xB1], keep := [true], strb := [true], last := false, tid := 1, tdest := 0, user := [] } },
       { reset := false, valid := true, ready := true, word := { data := [0xA2], keep := [true], strb := [true], last := true, tid := 0, tdest := 0, user := [] } },
       { reset := false, valid := true, ready := true, word := { data := [0xB2], keep := [true], strb := [true], last := true, tid := 1, tdest := 0, user := [] } }] monInit).emitted.filter
        (fun pr => pr.1 = ((some 1, none) : StreamKey))
      = [(((some 1, none) : StreamKey),
          payloadOf { nBytes := 1, lsbFirst := true, hasKeep := true, hasStrb := true, hasLast := true, hasId := true, hasDest := false }
            [{ data := [0xB1], keep := [true], strb := [true], last := false, tid := 1, tdest := 0, user := [] },
       { data := [0xB2], keep := [true], strb := [true], last := true, tid := 1, tdest := 0, user := [] }])] := by
  exact C6_interleaved_streams
    { nBytes := 1, lsbFirst := true, hasKeep := true, hasStrb := true, hasLast := true, hasId := true, hasDest := false }
    rfl (some 0, none) (some 1, none) (by decide)
    [{ data := [0xA1], keep := [true], strb := [true], last := false, tid := 0, tdest := 0, user := [] },
       { data := [0xA2], keep := [true], strb := [true], last := true, tid := 0, tdest := 0, user := [] }]
    [{ data := [0xB1], keep := [true], strb := [true], last := false, tid := 1, tdest := 0, user := [] },
       { data := [0xB2], keep := [true], strb := [true], last := true, tid := 1, tdest := 0, user := [] }]
    [{ reset := false, valid := true, ready := true, word := { data := [0xA1], keep := [true], strb := [true], last := false, tid := 0, tdest := 0, user := [] } },
       { reset := false, valid := true, ready := true, word := { data := [0xB1], keep := [true], strb := [true], last := false, tid := 1, tdest := 0, user := [] } },
       { reset := false, valid := true, ready := true, word := { data := [0xA2], keep := [true], strb := [true], last := true, tid := 0, tdest := 0, user := [] } },
       { reset := false, valid := true, ready := true, word := { data := [0xB2], keep := [true], strb := [true], last := true, tid := 1, tdest := 0, user := [] } }]
    (by decide) (by decide) (by decide) (by unfold packetWords; decide)
    (by unfold packetWords; decide) (by decide) (by decide)
